import Mathlib

/-!
Verification development for the Secure Message Layer (SML) repository.

The repository ships the public header `src/include/sml/sml.h` (the declared
API surface: the `prekey_bundle` struct, the opaque `pairwise_session` and
`group_session` handles, and the five pairwise operations).  The algorithmic
bodies (X3DH agreement, Double Ratchet engine, skipped-key store, prekey
manager) are not part of the repository, so they are modelled here from the
specification's own words; every such definition carries a doc comment
starting with `Modelled from the spec:`.  Declaration-level facts (struct
layout, function signatures) are transcribed from the header itself.

Keys, secrets and byte values are modelled as natural numbers.  The
cryptographic primitives (DH, KDF, AEAD, signatures) are, per the spec,
trusted black boxes with stated contracts; the model instantiates them with
concrete executable functions that satisfy exactly those contracts
(DH commutativity, KDF determinism, AEAD round-trip and tag binding).
-/

namespace SML

/-- Error taxonomy transcribed from spec section 7. -/
inductive SmlError where
  | InvalidInput
  | InvalidSignature
  | PrekeyNotFound
  | AuthenticationFailed
  | StaleOrReplayedMessage
  | BufferTooSmall
  | ResourceExhausted
  | InternalError
deriving DecidableEq, Repr

/-- Negative C error code for each taxonomy member (the header documents
"0 on success, or a negative error code on failure"). -/
def errCode : SmlError → Int
  | .InvalidInput => -1
  | .InvalidSignature => -2
  | .PrekeyNotFound => -3
  | .AuthenticationFailed => -4
  | .StaleOrReplayedMessage => -5
  | .BufferTooSmall => -6
  | .ResourceExhausted => -7
  | .InternalError => -8

/-- Injective combination of two naturals, used as the concrete instance of
every derivation primitive (hash / KDF step).  The `+ 1` shift keeps the
output strictly larger than both inputs. -/
def mix (a b : Nat) : Nat := Nat.pair (a + 1) (b + 1)

/-- Modelled from the spec: the Primitive Adapter's Diffie-Hellman function
("wraps a Diffie-Hellman function over a fixed elliptic curve...
Pure functions, no state").  A public key is the private scalar itself and
the shared secret is a symmetric combination, which realises the one contract
the spec states implicitly: `dh a (pub b) = dh b (pub a)`. -/
def dhPub (priv : Nat) : Nat := priv

/-- Modelled from the spec: the DH shared-secret computation (see `dhPub`). -/
def dhShared (priv pubKey : Nat) : Nat := mix (min priv pubKey) (max priv pubKey)

/-- Modelled from the spec: the symmetric-ratchet chain-key step
(chain key → next chain key), domain-separated from the message-key
derivation. -/
def kdfChainNext (ck : Nat) : Nat := mix 1 ck

/-- Modelled from the spec: the symmetric-ratchet message-key derivation
(chain key → message key). -/
def kdfMsgKey (ck : Nat) : Nat := mix 2 ck

/-- Modelled from the spec: the root-key KDF step of the DH ratchet —
"derive a new root key from DH(local ratchet private, new remote ratchet
public) combined with the old root key" — returning the new root key and the
initial chain key of the freshly reset chain. -/
def kdfRootStep (root dhSecret : Nat) : Nat × Nat :=
  (mix 0 (mix root dhSecret), mix 3 (mix root dhSecret))

/-- Modelled from the spec: the X3DH output KDF — "feeds concatenation
through the key-derivation function with a fixed domain-separation label to
produce the initial root key and an initial sending chain key". -/
def kdfX3dh (secrets : List Nat) : Nat × Nat :=
  let ikm := secrets.foldl mix 4
  (mix 5 ikm, mix 6 ikm)

/-- Modelled from the spec: signature over the signed prekey made with the
identity private key. -/
def signPK (idPriv msg : Nat) : Nat := mix 7 (mix idPriv msg)

/-- Modelled from the spec: signed-prekey signature verification against the
identity public key. -/
def verifyPK (idPub msg sig : Nat) : Bool := sig == mix 7 (mix idPub msg)

/-- Wire header of a message envelope, transcribed from spec section 6:
sender ratchet public identifier, message counter, previous-chain length. -/
structure Header where
  ratchetPub : Nat
  counter : Nat
  prevChainLen : Nat
deriving DecidableEq, Repr

/-- Injective encoding of the header used as AEAD associated data
("header bytes are always the AEAD associated data, never encrypted"). -/
def encodeHeader (h : Header) : Nat := mix h.ratchetPub (mix h.counter h.prevChainLen)

/-- Injective encoding of a byte sequence (for the AEAD tag). -/
def encodeBytes (m : List Nat) : Nat := m.foldr mix 8

/-- Modelled from the spec: the AEAD authentication tag, binding key,
associated data and plaintext. -/
def aeadTag (key ad : Nat) (m : List Nat) : Nat := mix 9 (mix key (mix ad (encodeBytes m)))

/-- Modelled from the spec: AEAD encryption of the Primitive Adapter.
Ciphertext bytes are the plaintext bytes shifted by the key; the tag binds
key, associated data and plaintext. -/
def aeadEncrypt (key ad : Nat) (m : List Nat) : List Nat × Nat :=
  (m.map (fun b => b + key), aeadTag key ad m)

/-- Modelled from the spec: AEAD decryption; yields `none` on tag mismatch
("AEAD tag mismatch — treated as untrusted-input"). -/
def aeadDecrypt (key ad : Nat) (c : List Nat) (tag : Nat) : Option (List Nat) :=
  let m := c.map (fun b => b - key)
  if (∀ b ∈ c, key ≤ b) ∧ tag = aeadTag key ad m then some m else none

/-- Model of the published prekey bundle (spec section 3: "public snapshot
{identity public key, signed prekey public key + signature, optional one-time
prekey public key + id}").  The in-memory C struct layout is embedded
separately below. -/
structure PrekeyBundleM where
  identityKey : Nat
  signedPrekey : Nat
  signedPrekeySignature : Nat
  oneTimePrekey : Nat
  hasOneTimePrekey : Bool
  prekeyId : Nat
deriving DecidableEq, Repr

/-- Modelled from the spec: the initiator side of the X3DH agreement
(spec 4.2): verify the signed-prekey signature (`InvalidSignature` on
mismatch); compute DH(identity, signed_prekey) ‖ DH(ephemeral, identity_peer)
‖ DH(ephemeral, signed_prekey) ‖ [DH(ephemeral, one_time_prekey) if present];
KDF the concatenation into the initial root key and chain key. -/
def x3dhInitiator (idPriv ephPriv : Nat) (b : PrekeyBundleM) :
    Except SmlError (Nat × Nat) :=
  if verifyPK b.identityKey b.signedPrekey b.signedPrekeySignature then
    let base := [dhShared idPriv b.signedPrekey,
                 dhShared ephPriv b.identityKey,
                 dhShared ephPriv b.signedPrekey]
    let parts := if b.hasOneTimePrekey then base ++ [dhShared ephPriv b.oneTimePrekey] else base
    .ok (kdfX3dh parts)
  else
    .error .InvalidSignature

/-- Modelled from the spec: the responder side of the X3DH agreement
(spec 4.2): "symmetric but using own long-term/prekey privates against the
initiator's published identity and ephemeral public keys". -/
def x3dhResponder (idPriv spkPriv : Nat) (otpPriv : Option Nat)
    (idApub ephApub : Nat) : Nat × Nat :=
  let base := [dhShared spkPriv idApub,
               dhShared idPriv ephApub,
               dhShared spkPriv ephApub]
  let parts := match otpPriv with
    | some o => base ++ [dhShared o ephApub]
    | none => base
  kdfX3dh parts

/-- An honestly published bundle for responder key material (signature made
with the responder's identity key over the signed prekey). -/
def honestBundle (idB spkB otpB : Nat) (useOtp : Bool) (pid : Nat) : PrekeyBundleM :=
  { identityKey := dhPub idB
    signedPrekey := dhPub spkB
    signedPrekeySignature := signPK idB (dhPub spkB)
    oneTimePrekey := dhPub otpB
    hasOneTimePrekey := useOtp
    prekeyId := pid }

/-- A cached skipped-message key (spec section 3, Skipped-Key Entry):
ratchet generation identifier (the sender's ratchet public key under which
the message was sent), message index, message key; insertion order is the
position in the session's list. -/
structure SkippedEntry where
  gen : Nat
  idx : Nat
  key : Nat
deriving DecidableEq, Repr

/-- Modelled from the spec: the bounded capacity of the Skipped-Key Store
("Bounded count (policy limit, e.g. 1000 entries)"). -/
def skipCapacity : Nat := 1000

/-- Modelled from the spec: `insert(generation, index, key)` of the
Skipped-Key Store, "bounded by capacity with oldest-first eviction when
full".  The list is kept oldest-first, so eviction drops from the front. -/
def insertSkipped (store : List SkippedEntry) (e : SkippedEntry) : List SkippedEntry :=
  let grown := store ++ [e]
  if skipCapacity < grown.length then grown.drop (grown.length - skipCapacity) else grown

/-- Modelled from the spec: `take(generation, index) -> key | Miss` of the
Skipped-Key Store; "take is destructive" — the found entry is removed. -/
def takeSkipped (store : List SkippedEntry) (g i : Nat) :
    Option (Nat × List SkippedEntry) :=
  match store with
  | [] => none
  | e :: rest =>
    if e.gen = g ∧ e.idx = i then some (e.key, rest)
    else
      match takeSkipped rest g i with
      | some (k, rest2) => some (k, e :: rest2)
      | none => none

/-- Modelled from the spec: advancing a receiving chain by `n` symmetric
steps, caching the message key of each skipped index ("caching every key
strictly before the target index into the Skipped-Key Store"). `lo` is the
index the chain key `ck` currently stands at. -/
def skipSteps (g ck lo : Nat) : Nat → List SkippedEntry → List SkippedEntry × Nat
  | 0, store => (store, ck)
  | n + 1, store =>
      skipSteps g (kdfChainNext ck) (lo + 1) n (insertSkipped store ⟨g, lo, kdfMsgKey ck⟩)

/-- Mutable pairwise session state, transcribed from spec section 3
("Pairwise Session: mutable state {root key, sending chain key, receiving
chain key, local ratchet key pair, remote ratchet public key, send message
counter, receive message counter, number of messages in previous sending
chain, skipped-key store}").  `pendingSendRatchet` marks the deferred
sending-chain reset of spec 4.3 ("reset the sending chain similarly
(deferred until the next send)"), and `nextSeed` is the deterministic source
modelling fresh ratchet key generation. -/
structure RatchetState where
  rootKey : Nat
  sendChainKey : Nat
  recvChainKey : Nat
  localRatchetPriv : Nat
  remoteRatchetPub : Nat
  sendCount : Nat
  recvCount : Nat
  prevChainLen : Nat
  pendingSendRatchet : Bool
  nextSeed : Nat
  skipped : List SkippedEntry
deriving DecidableEq, Repr

/-- A full message envelope (spec section 3: "{header (ratchet/epoch
metadata, counters) as associated data, ciphertext, authentication tag}"). -/
structure Envelope where
  header : Header
  ciphertext : List Nat
  tag : Nat
deriving DecidableEq, Repr

/-- The envelope produced for plaintext `m` under message key `mk` and
header `h` (ciphertext plus tag over the header as associated data). -/
def mkEnvelope (mk : Nat) (h : Header) (m : List Nat) : Envelope :=
  ⟨h, (aeadEncrypt mk (encodeHeader h) m).1, (aeadEncrypt mk (encodeHeader h) m).2⟩

/-- Modelled from the spec: the deferred sending-chain half of a DH ratchet
step ("reset the sending chain similarly (deferred until the next send)"):
a root-KDF step over DH(new local ratchet private, remote ratchet public)
resets the sending chain and records the previous chain's length. -/
def completeSendRatchet (s : RatchetState) : RatchetState :=
  if s.pendingSendRatchet then
    let stepped := kdfRootStep s.rootKey (dhShared s.localRatchetPriv s.remoteRatchetPub)
    { s with rootKey := stepped.1, sendChainKey := stepped.2,
             prevChainLen := s.sendCount, sendCount := 0,
             pendingSendRatchet := false }
  else s

/-- Modelled from the spec: the Double Ratchet send operation behind
`pairwise_encrypt` (spec 4.3 "On send"): complete a pending DH ratchet step
if one is deferred, derive the next message key from the current sending
chain key, increment the send counter, and AEAD-encrypt binding the header
(current ratchet public key, send counter, previous-chain length) as
associated data.  The used message key is not retained anywhere in the
returned state (key-erasure invariant). -/
def ratchetEncrypt (s0 : RatchetState) (m : List Nat) : RatchetState × Envelope :=
  let s := completeSendRatchet s0
  let mk := kdfMsgKey s.sendChainKey
  let h : Header := ⟨dhPub s.localRatchetPriv, s.sendCount, s.prevChainLen⟩
  ({ s with sendChainKey := kdfChainNext s.sendChainKey, sendCount := s.sendCount + 1 },
   mkEnvelope mk h m)

/-- Modelled from the spec: the Double Ratchet receive operation behind
`pairwise_decrypt` (spec 4.3 "On receive"): first consult the Skipped-Key
Store for the header's (generation, index) — a hit is consumed destructively;
otherwise, if the header's ratchet key matches the tracked remote key, a
counter below the receive counter is a replay (`StaleOrReplayedMessage`),
else the receiving chain is advanced to the header's counter caching every
skipped key; if the header carries a new ratchet key, the remainder of the
old receiving chain (up to the header's previous-chain length) is cached, a
DH ratchet step resets the receiving chain, a fresh local ratchet pair is
generated and the sending-chain reset is deferred.  A tag mismatch yields
`AuthenticationFailed` and leaves the session state unchanged (spec 4.3 /
section 7 propagation policy). -/
def ratchetDecrypt (s : RatchetState) (e : Envelope) :
    RatchetState × Except SmlError (List Nat) :=
  let h := e.header
  match takeSkipped s.skipped h.ratchetPub h.counter with
  | some (mk, store2) =>
      match aeadDecrypt mk (encodeHeader h) e.ciphertext e.tag with
      | some m => ({ s with skipped := store2 }, .ok m)
      | none => (s, .error .AuthenticationFailed)
  | none =>
    if h.ratchetPub = s.remoteRatchetPub then
      if h.counter < s.recvCount then
        (s, .error .StaleOrReplayedMessage)
      else
        let skipped := skipSteps h.ratchetPub s.recvChainKey s.recvCount
          (h.counter - s.recvCount) s.skipped
        let mk := kdfMsgKey skipped.2
        match aeadDecrypt mk (encodeHeader h) e.ciphertext e.tag with
        | some m =>
            ({ s with recvChainKey := kdfChainNext skipped.2,
                      recvCount := h.counter + 1,
                      skipped := skipped.1 }, .ok m)
        | none => (s, .error .AuthenticationFailed)
    else
      let oldCached := skipSteps s.remoteRatchetPub s.recvChainKey s.recvCount
        (h.prevChainLen - s.recvCount) s.skipped
      let stepped := kdfRootStep s.rootKey (dhShared s.localRatchetPriv h.ratchetPub)
      let newCached := skipSteps h.ratchetPub stepped.2 0 h.counter oldCached.1
      let mk := kdfMsgKey newCached.2
      match aeadDecrypt mk (encodeHeader h) e.ciphertext e.tag with
      | some m =>
          ({ rootKey := stepped.1
             sendChainKey := s.sendChainKey
             recvChainKey := kdfChainNext newCached.2
             localRatchetPriv := s.nextSeed
             remoteRatchetPub := h.ratchetPub
             sendCount := s.sendCount
             recvCount := h.counter + 1
             prevChainLen := s.prevChainLen
             pendingSendRatchet := true
             nextSeed := s.nextSeed + 2
             skipped := newCached.1 }, .ok m)
      | none => (s, .error .AuthenticationFailed)

/-- Fixed, versioned wire encoding of an envelope (spec section 6): header
fields first, then tag and ciphertext, as a flat sequence of values. -/
def serializeEnvelope (e : Envelope) : List Nat :=
  e.header.ratchetPub :: e.header.counter :: e.header.prevChainLen :: e.tag :: e.ciphertext

/-- Parsing of the wire encoding; `none` models `InvalidInput` for a
malformed envelope. -/
def parseEnvelope (bytes : List Nat) : Option Envelope :=
  match bytes with
  | rp :: c :: pcl :: tag :: ct => some ⟨⟨rp, c, pcl⟩, ct, tag⟩
  | _ => none

/-- Outcome of a C-level call with a caller-allocated output buffer:
the int return code, the bytes written to the output buffer, the value left
in the in/out length parameter, and the session state after the call. -/
structure BufferResult where
  ret : Int
  out : List Nat
  lenOut : Nat
  session : RatchetState
deriving DecidableEq, Repr

/-- Modelled from the spec: the C entry point `pairwise_encrypt` of
`src/include/sml/sml.h` (lines 115-119).  `cap` is the caller-declared
capacity of `encrypted_data`; on `BufferTooSmall` the required length is
reported through the in/out length parameter and nothing is written
("Buffers are caller-allocated with explicit capacity and the operation
reports required length on BufferTooSmall without partial writes"). -/
def pairwise_encrypt (s : RatchetState) (data : List Nat) (cap : Nat) : BufferResult :=
  let r := ratchetEncrypt s data
  let bytes := serializeEnvelope r.2
  if cap < bytes.length then ⟨errCode .BufferTooSmall, [], bytes.length, s⟩
  else ⟨0, bytes, bytes.length, r.1⟩

/-- Modelled from the spec: the C entry point `pairwise_decrypt` of
`src/include/sml/sml.h` (lines 134-138); same buffer discipline as
`pairwise_encrypt`, a malformed envelope is `InvalidInput`, and a typed
ratchet failure is returned as its negative error code with the session
unchanged. -/
def pairwise_decrypt (s : RatchetState) (bytes : List Nat) (cap : Nat) : BufferResult :=
  match parseEnvelope bytes with
  | none => ⟨errCode .InvalidInput, [], 0, s⟩
  | some env =>
    let r := ratchetDecrypt s env
    match r.2 with
    | .ok m =>
        if cap < m.length then ⟨errCode .BufferTooSmall, [], m.length, s⟩
        else ⟨0, m, m.length, r.1⟩
    | .error err => ⟨errCode err, [], 0, s⟩

/-- Modelled from the spec: the initiator's initial Double Ratchet state
seeded by the X3DH output (root key `rk`, initial sending chain key `ck`):
"the initiator's first ratchet key pair is the ephemeral pair"; the
responder's initial ratchet key is its signed prekey, so the receiving chain
is pre-derived by one root-KDF step over DH(ephemeral, signed prekey). -/
def initiatorSession (rk ck ephPriv spkPub seed : Nat) : RatchetState :=
  let stepped := kdfRootStep rk (dhShared ephPriv spkPub)
  { rootKey := stepped.1
    sendChainKey := ck
    recvChainKey := stepped.2
    localRatchetPriv := ephPriv
    remoteRatchetPub := spkPub
    sendCount := 0
    recvCount := 0
    prevChainLen := 0
    pendingSendRatchet := false
    nextSeed := seed
    skipped := [] }

/-- Modelled from the spec: the responder's initial Double Ratchet state,
mirror image of `initiatorSession` (its receiving chain is the initiator's
sending chain from the X3DH output, its sending chain comes from the same
pre-derived root-KDF step, its ratchet pair is the signed prekey). -/
def responderSession (rk ck spkPriv ephPub seed : Nat) : RatchetState :=
  let stepped := kdfRootStep rk (dhShared spkPriv ephPub)
  { rootKey := stepped.1
    sendChainKey := stepped.2
    recvChainKey := ck
    localRatchetPriv := spkPriv
    remoteRatchetPub := ephPub
    sendCount := 0
    recvCount := 0
    prevChainLen := 0
    pendingSendRatchet := false
    nextSeed := seed
    skipped := [] }

/-- Modelled from the spec: the C entry point `pairwise_init_session` of
`src/include/sml/sml.h` (lines 84-86): establishes a session via X3DH "using
a locally available bundle for the peer"; the peer public key must be 32
bytes (`InvalidInput` otherwise).  Returns the int code and the session
handle through the out-parameter. -/
def pairwise_init_session (ownId ephPriv seed : Nat) (bundle : PrekeyBundleM)
    (theirPub : List Nat) : Int × Option RatchetState :=
  if theirPub.length = 32 then
    match x3dhInitiator ownId ephPriv bundle with
    | .ok rc => (0, some (initiatorSession rc.1 rc.2 ephPriv bundle.signedPrekey seed))
    | .error err => (errCode err, none)
  else
    (errCode .InvalidInput, none)

/-- Modelled from the spec: `pairwise_destroy_session` of
`src/include/sml/sml.h` (line 88): "releases and erases all secret state;
idempotent on a valid handle, error on reuse after destroy". -/
def pairwise_destroy_session (s : Option RatchetState) : Int × Option RatchetState :=
  match s with
  | some _ => (0, none)
  | none => (errCode .InvalidInput, none)

/-- Modelled from the spec: the Prekey Manager's state (spec 4.1): identity
key pair, signed prekey pair, and a pool of one-time prekeys as (id, private
key) entries. -/
structure PrekeyStore where
  identityPriv : Nat
  signedPrekeyPriv : Nat
  oneTimePrekeys : List (Nat × Nat)
deriving DecidableEq, Repr

/-- Looks up the private key of the one-time prekey with the given id. -/
def lookupOtp (l : List (Nat × Nat)) (i : Nat) : Option Nat :=
  match l with
  | [] => none
  | p :: rest => if p.1 = i then some p.2 else lookupOtp rest i

/-- Removal of the first one-time prekey with the given id, returning its
private key and the remaining pool. -/
def consumeOtp (l : List (Nat × Nat)) (i : Nat) : Option (Nat × List (Nat × Nat)) :=
  match l with
  | [] => none
  | p :: rest =>
    if p.1 = i then some (p.2, rest)
    else
      match consumeOtp rest i with
      | some (k, rest2) => some (k, p :: rest2)
      | none => none

/-- Modelled from the spec: `consume_one_time_prekey(id) -> key pair |
NotFound` (spec 4.1); "Side effect: erases the consumed private key material
after the caller takes ownership of it". -/
def consume_one_time_prekey (st : PrekeyStore) (i : Nat) : PrekeyStore × Option Nat :=
  match consumeOtp st.oneTimePrekeys i with
  | some (k, rest) => ({ st with oneTimePrekeys := rest }, some k)
  | none => (st, none)

/-- Modelled from the spec: the C entry point `x3dh_get_own_prekey_bundle`
of `src/include/sml/sml.h` (line 100): publishes the current bundle, with
"at most one still-unused one-time prekey" and the presence flag cleared when
the pool is exhausted. -/
def x3dh_get_own_prekey_bundle (st : PrekeyStore) : Int × PrekeyBundleM :=
  match st.oneTimePrekeys with
  | [] =>
      (0, { identityKey := dhPub st.identityPriv
            signedPrekey := dhPub st.signedPrekeyPriv
            signedPrekeySignature := signPK st.identityPriv (dhPub st.signedPrekeyPriv)
            oneTimePrekey := 0
            hasOneTimePrekey := false
            prekeyId := 0 })
  | p :: _ =>
      (0, { identityKey := dhPub st.identityPriv
            signedPrekey := dhPub st.signedPrekeyPriv
            signedPrekeySignature := signPK st.identityPriv (dhPub st.signedPrekeyPriv)
            oneTimePrekey := dhPub p.2
            hasOneTimePrekey := true
            prekeyId := p.1 })

/-- Modelled from the spec: the responder side of session establishment
(spec 4.2): "must locate the one-time prekey by id via the Prekey Manager
and fail with PrekeyNotFound if already consumed". -/
def x3dhAccept (st : PrekeyStore) (pid : Option Nat) (idApub ephApub : Nat) :
    PrekeyStore × Except SmlError (Nat × Nat) :=
  match pid with
  | none => (st, .ok (x3dhResponder st.identityPriv st.signedPrekeyPriv none idApub ephApub))
  | some i =>
    match consume_one_time_prekey st i with
    | (st2, some otp) =>
        (st2, .ok (x3dhResponder st.identityPriv st.signedPrekeyPriv (some otp) idApub ephApub))
    | (_, none) => (st, .error .PrekeyNotFound)

/-- Declared C type of a struct field, for the layout transcribed from
`src/include/sml/sml.h`. -/
inductive CFieldType where
  | byteArray (n : Nat)
  | cInt
  | uint32
deriving DecidableEq, Repr

/-- Size in bytes of a declared field type; `intSize` is the
implementation-defined size of the C `int` type (at least 2 by the C
standard). -/
def fieldSize (intSize : Nat) : CFieldType → Nat
  | .byteArray n => n
  | .cInt => intSize
  | .uint32 => 4

/-- The `prekey_bundle` struct layout transcribed field by field from
`src/include/sml/sml.h` lines 37-69: four fixed-size `unsigned char` arrays,
an `int` presence flag, and a `uint32_t` prekey id. -/
def prekey_bundle_fields : List (String × CFieldType) :=
  [("identity_key", .byteArray 32),
   ("signed_prekey", .byteArray 32),
   ("signed_prekey_signature", .byteArray 64),
   ("one_time_prekey", .byteArray 32),
   ("has_one_time_prekey", .cInt),
   ("prekey_id", .uint32)]

/-- Declared type of a `prekey_bundle` field, by name. -/
def bundleFieldType (n : String) : Option CFieldType :=
  (prekey_bundle_fields.find? (fun p => p.1 = n)).map Prod.snd

/-- A C function declaration of the public header: name, whether it returns
`int`, the parameters documented `[out]` or `[in,out]`, and the parameters
documented `[in]` (an in/out length parameter appears in both lists). -/
structure CFunDecl where
  name : String
  returnsInt : Bool
  outParams : List String
  inParams : List String
deriving DecidableEq, Repr

/-- The complete list of functions declared by `src/include/sml/sml.h`,
transcribed in header order with their parameter directions. -/
def sml_declared_functions : List CFunDecl :=
  [⟨"pairwise_init_session", true, ["session"],
    ["their_public_key", "their_public_key_len"]⟩,
   ⟨"pairwise_destroy_session", true, [], ["session"]⟩,
   ⟨"x3dh_get_own_prekey_bundle", true, ["own_prekey_bundle"], []⟩,
   ⟨"pairwise_encrypt", true, ["encrypted_data", "encrypted_data_len"],
    ["session", "data", "data_len", "encrypted_data_len"]⟩,
   ⟨"pairwise_decrypt", true, ["decrypted_data", "decrypted_data_len"],
    ["session", "encrypted_data", "encrypted_data_len", "decrypted_data_len"]⟩]

/-- The type names declared by `src/include/sml/sml.h`: the two opaque
session handles (lines 22 and 28) and the bundle struct (lines 37-69). -/
def sml_declared_types : List String :=
  ["pairwise_session", "group_session", "prekey_bundle"]

/-- The group operations named by spec section 6 ("Group analogues"). -/
def group_operation_names : List String :=
  ["create_group", "add_member", "remove_member", "group_encrypt", "group_decrypt"]

/-- A scheduler command over a pair of linked sessions: party A or B
encrypts a fresh plaintext, or a previously produced envelope (by index of
production, in either direction) is submitted to the peer's decrypt.
Deliveries may repeat and arrive in any order. -/
inductive Cmd where
  | sendA (m : List Nat)
  | sendB (m : List Nat)
  | deliverToB (i : Nat)
  | deliverToA (i : Nat)

/-- The two linked sessions together with the full history of produced
envelopes (with their plaintexts) and the indices already decrypted
successfully by each receiver; the histories and delivery records are ghost
data used only to state the theorems. -/
structure World where
  sA : RatchetState
  sB : RatchetState
  sentAB : List (List Nat × Envelope)
  sentBA : List (List Nat × Envelope)
  gotB : List Nat
  gotA : List Nat

/-- One scheduler step: encrypt appends to the history, delivery runs the
peer's decrypt on a recorded envelope and records the index on success. -/
def stepCmd (w : World) : Cmd → World
  | .sendA m =>
      let r := ratchetEncrypt w.sA m
      { w with sA := r.1, sentAB := w.sentAB ++ [(m, r.2)] }
  | .sendB m =>
      let r := ratchetEncrypt w.sB m
      { w with sB := r.1, sentBA := w.sentBA ++ [(m, r.2)] }
  | .deliverToB i =>
      match w.sentAB.get? i with
      | none => w
      | some p =>
          let r := ratchetDecrypt w.sB p.2
          { w with sB := r.1,
                   gotB := match r.2 with | .ok _ => w.gotB ++ [i] | .error _ => w.gotB }
  | .deliverToA i =>
      match w.sentBA.get? i with
      | none => w
      | some p =>
          let r := ratchetDecrypt w.sA p.2
          { w with sA := r.1,
                   gotA := match r.2 with | .ok _ => w.gotA ++ [i] | .error _ => w.gotA }

/-- Runs a command sequence. -/
def runCmds (cmds : List Cmd) (w : World) : World := cmds.foldl stepCmd w

/-- The initial linked pair of sessions, established per spec 4.2 from a
seed that supplies the (pairwise distinct) generated private keys: the
responder's identity, signed prekey and one-time prekey, and the initiator's
identity and ephemeral keys.  Both sides seed their Double Ratchet state
from the common X3DH output. -/
def initWorld (seed : Nat) : World :=
  let idB := seed
  let spkB := seed + 1
  let otpB := seed + 2
  let idA := seed + 3
  let ephA := seed + 4
  let rc := x3dhResponder idB spkB (some otpB) (dhPub idA) (dhPub ephA)
  { sA := initiatorSession rc.1 rc.2 ephA (dhPub spkB) (2 * seed + 12)
    sB := responderSession rc.1 rc.2 spkB (dhPub ephA) (2 * seed + 13)
    sentAB := []
    sentBA := []
    gotB := []
    gotA := [] }

/-- A world is reachable when some interleaved sequence of encrypt/decrypt
commands produces it from a freshly established linked pair. -/
def Reach (w : World) : Prop := ∃ seed cmds, runCmds cmds (initWorld seed) = w

/-- The chain key after `n` symmetric-ratchet steps from `ck`. -/
def chainAdvance (ck : Nat) : Nat → Nat
  | 0 => ck
  | n + 1 => kdfChainNext (chainAdvance ck n)

/-- The message key at index `n` of the chain starting at `ck`. -/
def msgKeyAt (ck n : Nat) : Nat := kdfMsgKey (chainAdvance ck n)

/-- The skipped-key entries cached when a receiving chain based at `c` is
advanced from index `lo` across `n` indices. -/
def rangeEntries (g c lo n : Nat) : List SkippedEntry :=
  (List.range n).map (fun j => ⟨g, lo + j, msgKeyAt c (lo + j)⟩)

/-- The linkage invariant between the two sessions of a world, relative to
the two ratchet public keys (`pa` for A, `pb` for B) and the two chain base
keys (`cab` for the A-to-B chain, `cba` for the B-to-A chain) fixed at
session establishment.  It asserts chain alignment, counter consistency with
the history, correctness of every cached skipped key, and that every
successfully delivered index is consumed (below the receive counter and no
longer in the store). -/
structure LinkInv (pa pb cab cba : Nat) (w : World) : Prop where
  apriv : w.sA.localRatchetPriv = pa
  aremote : w.sA.remoteRatchetPub = pb
  bpriv : w.sB.localRatchetPriv = pb
  bremote : w.sB.remoteRatchetPub = pa
  apend : w.sA.pendingSendRatchet = false
  bpend : w.sB.pendingSendRatchet = false
  aprev : w.sA.prevChainLen = 0
  bprev : w.sB.prevChainLen = 0
  asend : w.sA.sendChainKey = chainAdvance cab w.sA.sendCount
  arecv : w.sA.recvChainKey = chainAdvance cba w.sA.recvCount
  bsend : w.sB.sendChainKey = chainAdvance cba w.sB.sendCount
  brecv : w.sB.recvChainKey = chainAdvance cab w.sB.recvCount
  acount : w.sA.sendCount = w.sentAB.length
  bcount : w.sB.sendCount = w.sentBA.length
  brle : w.sB.recvCount ≤ w.sentAB.length
  arle : w.sA.recvCount ≤ w.sentBA.length
  absent : ∀ i p, w.sentAB.get? i = some p →
    p.2 = mkEnvelope (msgKeyAt cab i) ⟨pa, i, 0⟩ p.1
  basent : ∀ i p, w.sentBA.get? i = some p →
    p.2 = mkEnvelope (msgKeyAt cba i) ⟨pb, i, 0⟩ p.1
  bstore : ∀ e ∈ w.sB.skipped, e.gen = pa ∧ e.idx < w.sB.recvCount ∧
    e.key = msgKeyAt cab e.idx
  astore : ∀ e ∈ w.sA.skipped, e.gen = pb ∧ e.idx < w.sA.recvCount ∧
    e.key = msgKeyAt cba e.idx
  bnodup : w.sB.skipped.Pairwise (fun e1 e2 => e1.idx ≠ e2.idx)
  anodup : w.sA.skipped.Pairwise (fun e1 e2 => e1.idx ≠ e2.idx)
  bgot : ∀ i ∈ w.gotB, i < w.sB.recvCount ∧ ∀ e ∈ w.sB.skipped, e.idx ≠ i
  agot : ∀ i ∈ w.gotA, i < w.sA.recvCount ∧ ∀ e ∈ w.sA.skipped, e.idx ≠ i
  bcap : w.sB.skipped.length ≤ skipCapacity
  acap : w.sA.skipped.length ≤ skipCapacity

/-- A minimal concrete session state used to instantiate theorems with
hypotheses on concrete inputs. -/
def zeroSession : RatchetState :=
  { rootKey := 0, sendChainKey := 0, recvChainKey := 0, localRatchetPriv := 0,
    remoteRatchetPub := 0, sendCount := 0, recvCount := 0, prevChainLen := 0,
    pendingSendRatchet := false, nextSeed := 0, skipped := [] }

/-- A concrete envelope whose tag does not verify against `zeroSession`. -/
def badTagEnvelope : Envelope := ⟨⟨0, 0, 0⟩, [], 0⟩

/-- Exchanges the roles of the two parties of a world. -/
def swapWorld (w : World) : World :=
  ⟨w.sB, w.sA, w.sentBA, w.sentAB, w.gotA, w.gotB⟩

/-- The outcome of submitting the recorded envelope number `i` to B's
decrypt in world `w` (without touching the state). -/
def deliverResult (w : World) (i : Nat) : Except SmlError (List Nat) :=
  match w.sentAB.get? i with
  | none => .error .InvalidInput
  | some p => (ratchetDecrypt w.sB p.2).2

/-- One delivery step to B, as a world transition. -/
def deliverStep (w : World) (i : Nat) : World := stepCmd w (.deliverToB i)

/-- The out-of-order scenario of the spec (section 8): messages 1..5 sent in
order on the initiator session. -/
def c5Start : World :=
  runCmds [Cmd.sendA [1], Cmd.sendA [2], Cmd.sendA [3], Cmd.sendA [4], Cmd.sendA [5]]
    (initWorld 0)

theorem dhShared_comm (a b : Nat) : dhShared a (dhPub b) = dhShared b (dhPub a) := by
  simp [dhShared, dhPub, Nat.min_comm, Nat.max_comm]

theorem aead_roundtrip (key ad : Nat) (m : List Nat) :
    aeadDecrypt key ad (aeadEncrypt key ad m).1 (aeadEncrypt key ad m).2 = some m := by
  have hmap : (m.map (fun b => b + key)).map (fun b => b - key) = m := by
    simp [List.map_map, Function.comp_def, Nat.add_sub_cancel]
  have hall : ∀ b ∈ m.map (fun x => x + key), key ≤ b := by
    intro b hb
    rcases List.mem_map.mp hb with ⟨x, _, rfl⟩
    exact Nat.le_add_left key x
  simp [aeadDecrypt, aeadEncrypt, hmap, hall]

theorem chainAdvance_shift (c lo : Nat) :
    ∀ n, chainAdvance (chainAdvance c lo) n = chainAdvance c (lo + n)
  | 0 => rfl
  | n + 1 => by
      show kdfChainNext (chainAdvance (chainAdvance c lo) n) = chainAdvance c (lo + (n + 1))
      rw [chainAdvance_shift c lo n]
      rfl

theorem insertSkipped_mem {store : List SkippedEntry} {e0 e : SkippedEntry}
    (h : e ∈ insertSkipped store e0) : e ∈ store ∨ e = e0 := by
  unfold insertSkipped at h
  dsimp only at h
  by_cases hlen : skipCapacity < (store ++ [e0]).length
  · rw [if_pos hlen] at h
    have := (List.drop_subset _ _) h
    simpa using this
  · rw [if_neg hlen] at h
    simpa using h

theorem insertSkipped_suffix (store : List SkippedEntry) (e0 : SkippedEntry) :
    (insertSkipped store e0) <:+ (store ++ [e0]) := by
  unfold insertSkipped
  dsimp only
  by_cases hlen : skipCapacity < (store ++ [e0]).length
  · rw [if_pos hlen]
    exact List.drop_suffix _ _
  · rw [if_neg hlen]

theorem insertSkipped_length {store : List SkippedEntry} (e0 : SkippedEntry)
    (h : store.length ≤ skipCapacity) :
    (insertSkipped store e0).length ≤ skipCapacity := by
  unfold insertSkipped
  dsimp only
  by_cases hlen : skipCapacity < (store ++ [e0]).length
  · rw [if_pos hlen, List.length_drop]
    omega
  · rw [if_neg hlen]
    simp only [List.length_append, List.length_cons, List.length_nil] at hlen ⊢
    omega

theorem rangeEntries_cons (g c lo n : Nat) :
    rangeEntries g c lo (n + 1) =
      ⟨g, lo, msgKeyAt c lo⟩ :: rangeEntries g c (lo + 1) n := by
  unfold rangeEntries
  rw [List.range_succ_eq_map]
  simp only [List.map_cons, List.map_map, Nat.add_zero]
  congr 1
  apply List.map_congr_left
  intro j _
  have hj : lo + (j + 1) = lo + 1 + j := by omega
  simp only [Function.comp_apply, Nat.succ_eq_add_one, hj]

theorem skipSteps_snd (g c : Nat) :
    ∀ n lo store, (skipSteps g (chainAdvance c lo) lo n store).2 = chainAdvance c (lo + n) := by
  intro n
  induction n with
  | zero => intro lo store; simp [skipSteps]
  | succ n ih =>
      intro lo store
      show (skipSteps g (kdfChainNext (chainAdvance c lo)) (lo + 1) n _).2 = _
      have h1 : kdfChainNext (chainAdvance c lo) = chainAdvance c (lo + 1) := rfl
      rw [h1, ih (lo + 1)]
      congr 1
      omega

theorem skipSteps_fst_suffix (g c : Nat) :
    ∀ n lo store, (skipSteps g (chainAdvance c lo) lo n store).1 <:+
      store ++ rangeEntries g c lo n := by
  intro n
  induction n with
  | zero => intro lo store; simp [skipSteps, rangeEntries]
  | succ n ih =>
      intro lo store
      show (skipSteps g (kdfChainNext (chainAdvance c lo)) (lo + 1) n
        (insertSkipped store ⟨g, lo, kdfMsgKey (chainAdvance c lo)⟩)).1 <:+ _
      have h1 : kdfChainNext (chainAdvance c lo) = chainAdvance c (lo + 1) := rfl
      have h2 : kdfMsgKey (chainAdvance c lo) = msgKeyAt c lo := rfl
      rw [h1, h2]
      have hins := insertSkipped_suffix store ⟨g, lo, msgKeyAt c lo⟩
      have hih := ih (lo + 1) (insertSkipped store ⟨g, lo, msgKeyAt c lo⟩)
      have happ : (insertSkipped store ⟨g, lo, msgKeyAt c lo⟩) ++ rangeEntries g c (lo + 1) n
          <:+ (store ++ [⟨g, lo, msgKeyAt c lo⟩]) ++ rangeEntries g c (lo + 1) n := by
        rcases hins with ⟨p, hp⟩
        exact ⟨p, by rw [← hp, List.append_assoc]⟩
      have := hih.trans happ
      rw [rangeEntries_cons]
      simpa [List.append_assoc] using this

theorem takeSkipped_eq_none {store : List SkippedEntry} {g i : Nat}
    (h : ∀ e ∈ store, ¬(e.gen = g ∧ e.idx = i)) : takeSkipped store g i = none := by
  induction store with
  | nil => rfl
  | cons e rest ih =>
      unfold takeSkipped
      rw [if_neg (h e (by simp)), ih (fun x hx => h x (by simp [hx]))]

theorem takeSkipped_some_spec {store : List SkippedEntry} {g i k : Nat}
    {rest : List SkippedEntry} (h : takeSkipped store g i = some (k, rest)) :
    (⟨g, i, k⟩ : SkippedEntry) ∈ store ∧ rest.Sublist store := by
  induction store generalizing rest with
  | nil => simp [takeSkipped] at h
  | cons e tail ih =>
      unfold takeSkipped at h
      by_cases hc : e.gen = g ∧ e.idx = i
      · rw [if_pos hc] at h
        simp only [Option.some.injEq, Prod.mk.injEq] at h
        obtain ⟨hk, hr⟩ := h
        constructor
        · have he : e = ⟨g, i, k⟩ := by
            cases e
            simp_all
          rw [← he]
          exact List.mem_cons_self e tail
        · rw [← hr]
          exact List.sublist_cons_self e tail
      · rw [if_neg hc] at h
        cases hrec : takeSkipped tail g i with
        | none => rw [hrec] at h; exact absurd h (by simp)
        | some p =>
            obtain ⟨k2, rest2⟩ := p
            rw [hrec] at h
            simp only [Option.some.injEq, Prod.mk.injEq] at h
            obtain ⟨hk, hr⟩ := h
            subst hk
            obtain ⟨hmem, hsub⟩ := ih hrec
            constructor
            · exact List.mem_cons_of_mem e hmem
            · rw [← hr]
              exact List.Sublist.cons₂ e hsub

theorem takeSkipped_rest_idx {store : List SkippedEntry} {g i k : Nat}
    {rest : List SkippedEntry}
    (hgen : ∀ e ∈ store, e.gen = g)
    (hpw : store.Pairwise (fun a b => a.idx ≠ b.idx))
    (h : takeSkipped store g i = some (k, rest)) :
    ∀ e ∈ rest, e.idx ≠ i := by
  induction store generalizing rest with
  | nil => simp [takeSkipped] at h
  | cons e tail ih =>
      unfold takeSkipped at h
      rw [List.pairwise_cons] at hpw
      by_cases hc : e.gen = g ∧ e.idx = i
      · rw [if_pos hc] at h
        simp only [Option.some.injEq, Prod.mk.injEq] at h
        obtain ⟨_, hr⟩ := h
        intro x hx
        rw [← hr] at hx
        have := hpw.1 x hx
        omega
      · rw [if_neg hc] at h
        cases hrec : takeSkipped tail g i with
        | none => rw [hrec] at h; exact absurd h (by simp)
        | some p =>
            obtain ⟨k2, rest2⟩ := p
            rw [hrec] at h
            simp only [Option.some.injEq, Prod.mk.injEq] at h
            obtain ⟨hk, hr⟩ := h
            subst hk
            intro x hx
            rw [← hr] at hx
            rcases List.mem_cons.mp hx with hxe | hxr
            · subst hxe
              have hge := hgen x (by simp)
              intro hxi
              exact hc ⟨hge, hxi⟩
            · exact ih (fun y hy => hgen y (List.mem_cons_of_mem e hy)) hpw.2 hrec x hxr

theorem skipSteps_length (g : Nat) :
    ∀ (n : Nat) (ck lo : Nat) (store : List SkippedEntry),
      store.length ≤ skipCapacity →
      (skipSteps g ck lo n store).1.length ≤ skipCapacity := by
  intro n
  induction n with
  | zero => intro ck lo store h; simpa [skipSteps] using h
  | succ n ih =>
      intro ck lo store h
      exact ih _ _ _ (insertSkipped_length _ h)

theorem completeSendRatchet_noop {s : RatchetState}
    (hpend : s.pendingSendRatchet = false) : completeSendRatchet s = s := by
  unfold completeSendRatchet
  rw [hpend]
  simp

theorem ratchetEncrypt_spec {s : RatchetState} (m : List Nat) {cab : Nat}
    (hpend : s.pendingSendRatchet = false)
    (hchain : s.sendChainKey = chainAdvance cab s.sendCount)
    (hprev : s.prevChainLen = 0) :
    ratchetEncrypt s m =
      ({ s with sendChainKey := chainAdvance cab (s.sendCount + 1),
                sendCount := s.sendCount + 1 },
       mkEnvelope (msgKeyAt cab s.sendCount) ⟨s.localRatchetPriv, s.sendCount, 0⟩ m) := by
  unfold ratchetEncrypt
  rw [completeSendRatchet_noop hpend]
  dsimp only
  rw [hchain, hprev]
  rfl

theorem ratchetDecrypt_hit {s : RatchetState} {pa cab i k : Nat}
    {rest : List SkippedEntry} (m : List Nat)
    (hstore : ∀ e ∈ s.skipped, e.gen = pa ∧ e.idx < s.recvCount ∧
      e.key = msgKeyAt cab e.idx)
    (hin : takeSkipped s.skipped pa i = some (k, rest)) :
    ratchetDecrypt s (mkEnvelope (msgKeyAt cab i) ⟨pa, i, 0⟩ m) =
      ({ s with skipped := rest }, .ok m) := by
  have hmem := (takeSkipped_some_spec hin).1
  have hk : k = msgKeyAt cab i := by
    have := (hstore _ hmem).2.2
    simpa using this
  subst hk
  unfold ratchetDecrypt
  dsimp only [mkEnvelope]
  rw [hin]
  dsimp only
  rw [aead_roundtrip]

theorem ratchetDecrypt_stale {s : RatchetState} (pa cab i : Nat) (m : List Nat)
    (hrem : s.remoteRatchetPub = pa)
    (hmiss : takeSkipped s.skipped pa i = none)
    (hlt : i < s.recvCount) :
    ratchetDecrypt s (mkEnvelope (msgKeyAt cab i) ⟨pa, i, 0⟩ m) =
      (s, .error .StaleOrReplayedMessage) := by
  unfold ratchetDecrypt
  dsimp only [mkEnvelope]
  rw [hmiss]
  dsimp only
  rw [hrem, if_pos rfl, if_pos hlt]

theorem ratchetDecrypt_advance {s : RatchetState} {pa cab i : Nat} (m : List Nat)
    (hrem : s.remoteRatchetPub = pa)
    (hchain : s.recvChainKey = chainAdvance cab s.recvCount)
    (hmiss : takeSkipped s.skipped pa i = none)
    (hge : s.recvCount ≤ i) :
    ratchetDecrypt s (mkEnvelope (msgKeyAt cab i) ⟨pa, i, 0⟩ m) =
      ({ s with recvChainKey := chainAdvance cab (i + 1),
                recvCount := i + 1,
                skipped := (skipSteps pa (chainAdvance cab s.recvCount) s.recvCount
                  (i - s.recvCount) s.skipped).1 }, .ok m) := by
  unfold ratchetDecrypt
  dsimp only [mkEnvelope]
  rw [hmiss]
  dsimp only
  rw [hrem, if_pos rfl, if_neg (show ¬ i < s.recvCount by omega)]
  rw [hchain]
  have hsnd := skipSteps_snd pa cab (i - s.recvCount) s.recvCount s.skipped
  have heq : s.recvCount + (i - s.recvCount) = i := by omega
  rw [heq] at hsnd
  rw [hsnd]
  simp only [msgKeyAt]
  rw [aead_roundtrip]
  rfl

theorem swapWorld_swapWorld (w : World) : swapWorld (swapWorld w) = w := rfl

theorem linkInv_swap {pa pb cab cba : Nat} {w : World}
    (h : LinkInv pa pb cab cba w) : LinkInv pb pa cba cab (swapWorld w) :=
  { apriv := h.bpriv, aremote := h.bremote, bpriv := h.apriv, bremote := h.aremote,
    apend := h.bpend, bpend := h.apend, aprev := h.bprev, bprev := h.aprev,
    asend := h.bsend, arecv := h.brecv, bsend := h.asend, brecv := h.arecv,
    acount := h.bcount, bcount := h.acount, brle := h.arle, arle := h.brle,
    absent := h.basent, basent := h.absent, bstore := h.astore, astore := h.bstore,
    bnodup := h.anodup, anodup := h.bnodup, bgot := h.agot, agot := h.bgot,
    bcap := h.acap, acap := h.bcap }

theorem swap_stepCmd_send (w : World) (m : List Nat) :
    stepCmd (swapWorld w) (.sendA m) = swapWorld (stepCmd w (.sendB m)) := rfl

theorem swap_stepCmd_deliver (w : World) (i : Nat) :
    stepCmd (swapWorld w) (.deliverToB i) = swapWorld (stepCmd w (.deliverToA i)) := by
  simp only [stepCmd]
  dsimp only [swapWorld]
  cases hget : w.sentBA.get? i with
  | none => rfl
  | some p => dsimp only

theorem initWorld_inv (seed : Nat) :
    LinkInv (seed + 4) (seed + 1)
      (x3dhResponder seed (seed + 1) (some (seed + 2)) (dhPub (seed + 3)) (dhPub (seed + 4))).2
      (kdfRootStep
        (x3dhResponder seed (seed + 1) (some (seed + 2)) (dhPub (seed + 3)) (dhPub (seed + 4))).1
        (dhShared (seed + 1) (dhPub (seed + 4)))).2
      (initWorld seed) := by
  unfold initWorld
  dsimp only [initiatorSession, responderSession]
  refine { apriv := rfl, aremote := rfl, bpriv := rfl, bremote := rfl,
           apend := rfl, bpend := rfl, aprev := rfl, bprev := rfl,
           asend := rfl, arecv := ?_, bsend := rfl, brecv := rfl,
           acount := rfl, bcount := rfl, brle := Nat.le_refl 0, arle := Nat.le_refl 0,
           absent := ?_, basent := ?_, bstore := ?_, astore := ?_,
           bnodup := List.Pairwise.nil, anodup := List.Pairwise.nil,
           bgot := ?_, agot := ?_, bcap := Nat.zero_le _, acap := Nat.zero_le _ }
  · show (kdfRootStep _ (dhShared (seed + 4) (dhPub (seed + 1)))).2 = _
    rw [dhShared_comm (seed + 4) (seed + 1)]
    rfl
  · intro i p h
    simp at h
  · intro i p h
    simp at h
  · intro e he
    simp at he
  · intro e he
    simp at he
  · intro i hi
    simp at hi
  · intro i hi
    simp at hi

theorem stepSendA_inv {pa pb cab cba : Nat} {w : World}
    (hw : LinkInv pa pb cab cba w) (m : List Nat) :
    LinkInv pa pb cab cba (stepCmd w (.sendA m)) := by
  have henc := ratchetEncrypt_spec m hw.apend hw.asend hw.aprev
  show LinkInv pa pb cab cba
    { w with sA := (ratchetEncrypt w.sA m).1,
             sentAB := w.sentAB ++ [(m, (ratchetEncrypt w.sA m).2)] }
  rw [henc]
  dsimp only
  refine { apriv := hw.apriv, aremote := hw.aremote, bpriv := hw.bpriv,
           bremote := hw.bremote, apend := hw.apend, bpend := hw.bpend,
           aprev := hw.aprev, bprev := hw.bprev,
           asend := rfl, arecv := hw.arecv, bsend := hw.bsend, brecv := hw.brecv,
           acount := ?_, bcount := hw.bcount, brle := ?_, arle := hw.arle,
           absent := ?_, basent := hw.basent, bstore := hw.bstore, astore := hw.astore,
           bnodup := hw.bnodup, anodup := hw.anodup, bgot := hw.bgot, agot := hw.agot,
           bcap := hw.bcap, acap := hw.acap }
  · simp [hw.acount]
  · have := hw.brle
    simp only [List.length_append, List.length_cons, List.length_nil]
    omega
  · intro i p hget
    by_cases hi : i < w.sentAB.length
    · rw [List.get?_append hi] at hget
      exact hw.absent i p hget
    · have hge : w.sentAB.length ≤ i := Nat.le_of_not_lt hi
      rw [List.get?_append_right hge] at hget
      have hlt : i - w.sentAB.length < 1 := by
        rcases List.get?_eq_some.mp hget with ⟨hbound, _⟩
        simpa using hbound
      have hieq : i = w.sentAB.length := by omega
      subst hieq
      simp only [Nat.sub_self, List.get?] at hget
      have hp : p = (m, mkEnvelope (msgKeyAt cab w.sA.sendCount)
          ⟨w.sA.localRatchetPriv, w.sA.sendCount, 0⟩ m) := by
        exact (Option.some.injEq _ _).mp hget |>.symm
      rw [hp]
      rw [hw.apriv, hw.acount]

theorem stepDeliverB_unfold (w : World) (i : Nat) :
    stepCmd w (.deliverToB i) =
      (match w.sentAB.get? i with
        | none => w
        | some p =>
            { w with sB := (ratchetDecrypt w.sB p.2).1,
                     gotB := (match (ratchetDecrypt w.sB p.2).2 with
                       | .ok _ => w.gotB ++ [i]
                       | .error _ => w.gotB) }) := by
  simp only [stepCmd]

theorem rangeEntries_mem {g c lo n : Nat} {e : SkippedEntry}
    (h : e ∈ rangeEntries g c lo n) :
    e.gen = g ∧ lo ≤ e.idx ∧ e.idx < lo + n ∧ e.key = msgKeyAt c e.idx := by
  unfold rangeEntries at h
  rcases List.mem_map.mp h with ⟨j, hj, rfl⟩
  rw [List.mem_range] at hj
  refine ⟨rfl, ?_, ?_, rfl⟩
  · show lo ≤ lo + j
    omega
  · show lo + j < lo + n
    omega

theorem rangeEntries_pairwise (g c lo n : Nat) :
    (rangeEntries g c lo n).Pairwise (fun a b => a.idx ≠ b.idx) := by
  unfold rangeEntries
  rw [List.pairwise_map]
  apply List.Pairwise.imp _ (List.pairwise_lt_range n)
  intro a b hab
  dsimp only
  omega

theorem stepDeliverB_inv {pa pb cab cba : Nat} {w : World}
    (hw : LinkInv pa pb cab cba w) (i : Nat) :
    LinkInv pa pb cab cba (stepCmd w (.deliverToB i)) := by
  rw [stepDeliverB_unfold]
  cases hget : w.sentAB.get? i with
  | none => exact hw
  | some p =>
      have henv := hw.absent i p hget
      have hilen : i < w.sentAB.length := by
        rcases List.get?_eq_some.mp hget with ⟨h, _⟩
        exact h
      dsimp only
      rw [henv]
      cases htake : takeSkipped w.sB.skipped pa i with
      | some q =>
          obtain ⟨k, rest⟩ := q
          have hdec := ratchetDecrypt_hit p.1 hw.bstore htake
          rw [hdec]
          dsimp only
          have hspec := takeSkipped_some_spec htake
          have hsub : rest.Sublist w.sB.skipped := hspec.2
          have hidx : i < w.sB.recvCount := (hw.bstore _ hspec.1).2.1
          have hrest_idx : ∀ e ∈ rest, e.idx ≠ i :=
            takeSkipped_rest_idx (fun e he => (hw.bstore e he).1) hw.bnodup htake
          refine { apriv := hw.apriv, aremote := hw.aremote, bpriv := hw.bpriv,
                   bremote := hw.bremote, apend := hw.apend, bpend := hw.bpend,
                   aprev := hw.aprev, bprev := hw.bprev,
                   asend := hw.asend, arecv := hw.arecv, bsend := hw.bsend,
                   brecv := hw.brecv, acount := hw.acount, bcount := hw.bcount,
                   brle := hw.brle, arle := hw.arle,
                   absent := hw.absent, basent := hw.basent,
                   bstore := ?_, astore := hw.astore,
                   bnodup := hw.bnodup.sublist hsub, anodup := hw.anodup,
                   bgot := ?_, agot := hw.agot,
                   bcap := Nat.le_trans hsub.length_le hw.bcap, acap := hw.acap }
          · intro e he
            exact hw.bstore e (hsub.subset he)
          · intro j hj
            rcases List.mem_append.mp hj with hjold | hjnew
            · exact ⟨(hw.bgot j hjold).1,
                fun e he => (hw.bgot j hjold).2 e (hsub.subset he)⟩
            · have hji : j = i := by simpa using hjnew
              subst hji
              exact ⟨hidx, hrest_idx⟩
      | none =>
          by_cases hlt : i < w.sB.recvCount
          · have hdec := ratchetDecrypt_stale pa cab i p.1 hw.bremote htake hlt
            rw [hdec]
            dsimp only
            exact hw
          · have hge : w.sB.recvCount ≤ i := Nat.le_of_not_lt hlt
            have hdec := ratchetDecrypt_advance p.1 hw.bremote hw.brecv htake hge
            rw [hdec]
            dsimp only
            have hsuffix := skipSteps_fst_suffix pa cab (i - w.sB.recvCount)
              w.sB.recvCount w.sB.skipped
            have hsubl := hsuffix.sublist
            have happw : (w.sB.skipped ++
                rangeEntries pa cab w.sB.recvCount (i - w.sB.recvCount)).Pairwise
                (fun a b => a.idx ≠ b.idx) := by
              rw [List.pairwise_append]
              refine ⟨hw.bnodup, rangeEntries_pairwise _ _ _ _, ?_⟩
              intro a ha b hb
              have h1 := (hw.bstore a ha).2.1
              have h2 := (rangeEntries_mem hb).2.1
              omega
            refine { apriv := hw.apriv, aremote := hw.aremote, bpriv := hw.bpriv,
                     bremote := hw.bremote, apend := hw.apend, bpend := hw.bpend,
                     aprev := hw.aprev, bprev := hw.bprev,
                     asend := hw.asend, arecv := hw.arecv, bsend := hw.bsend,
                     brecv := rfl, acount := hw.acount, bcount := hw.bcount,
                     brle := ?_, arle := hw.arle,
                     absent := hw.absent, basent := hw.basent,
                     bstore := ?_, astore := hw.astore,
                     bnodup := happw.sublist hsubl, anodup := hw.anodup,
                     bgot := ?_, agot := hw.agot,
                     bcap := skipSteps_length pa _ _ _ _ hw.bcap, acap := hw.acap }
            · dsimp only
              omega
            · intro e he
              dsimp only at he ⊢
              rcases List.mem_append.mp (hsubl.subset he) with hes | her
              · obtain ⟨h1, h2, h3⟩ := hw.bstore e hes
                exact ⟨h1, by omega, h3⟩
              · obtain ⟨h1, h2, h3, h4⟩ := rangeEntries_mem her
                exact ⟨h1, by omega, h4⟩
            · intro j hj
              dsimp only at hj ⊢
              rcases List.mem_append.mp hj with hjold | hjnew
              · obtain ⟨h1, h2⟩ := hw.bgot j hjold
                refine ⟨by omega, ?_⟩
                intro e he
                rcases List.mem_append.mp (hsubl.subset he) with hes | her
                · exact h2 e hes
                · have := (rangeEntries_mem her).2.1
                  omega
              · have hji : j = i := by simpa using hjnew
                subst hji
                refine ⟨by omega, ?_⟩
                intro e he
                rcases List.mem_append.mp (hsubl.subset he) with hes | her
                · have := (hw.bstore e hes).2.1
                  omega
                · have := (rangeEntries_mem her).2.2.1
                  omega

theorem stepCmd_inv {pa pb cab cba : Nat} {w : World}
    (hw : LinkInv pa pb cab cba w) (c : Cmd) :
    LinkInv pa pb cab cba (stepCmd w c) := by
  cases c with
  | sendA m => exact stepSendA_inv hw m
  | deliverToB i => exact stepDeliverB_inv hw i
  | sendB m =>
      have h := stepSendA_inv (linkInv_swap hw) m
      rw [swap_stepCmd_send] at h
      have h2 := linkInv_swap h
      rwa [swapWorld_swapWorld] at h2
  | deliverToA i =>
      have h := stepDeliverB_inv (linkInv_swap hw) i
      rw [swap_stepCmd_deliver] at h
      have h2 := linkInv_swap h
      rwa [swapWorld_swapWorld] at h2

theorem runCmds_inv {pa pb cab cba : Nat} :
    ∀ (cmds : List Cmd) (w : World), LinkInv pa pb cab cba w →
      LinkInv pa pb cab cba (runCmds cmds w) := by
  intro cmds
  induction cmds with
  | nil => intro w hw; exact hw
  | cons c cs ih => intro w hw; exact ih _ (stepCmd_inv hw c)

theorem reach_inv {w : World} (h : Reach w) :
    ∃ pa pb cab cba, LinkInv pa pb cab cba w := by
  rcases h with ⟨seed, cmds, rfl⟩
  exact ⟨_, _, _, _, runCmds_inv cmds _ (initWorld_inv seed)⟩

theorem roundtripAB {pa pb cab cba : Nat} {w : World}
    (hinv : LinkInv pa pb cab cba w) (m : List Nat) :
    (ratchetDecrypt w.sB (ratchetEncrypt w.sA m).2).2 = .ok m := by
  have henc := ratchetEncrypt_spec m hinv.apend hinv.asend hinv.aprev
  rw [henc]
  dsimp only
  rw [hinv.apriv]
  have hmiss : takeSkipped w.sB.skipped pa w.sA.sendCount = none := by
    apply takeSkipped_eq_none
    intro e he hc
    have h1 := (hinv.bstore e he).2.1
    have h2 := hinv.brle
    have h3 := hinv.acount
    have h4 := hc.2
    omega
  have hge : w.sB.recvCount ≤ w.sA.sendCount := by
    rw [hinv.acount]
    exact hinv.brle
  have hdec := ratchetDecrypt_advance m hinv.bremote hinv.brecv hmiss hge
  rw [hdec]

theorem replayAB {pa pb cab cba : Nat} {w : World}
    (hinv : LinkInv pa pb cab cba w) (i : Nat) (m : List Nat) (env : Envelope)
    (hget : w.sentAB.get? i = some (m, env)) (hgot : i ∈ w.gotB) :
    (ratchetDecrypt w.sB env).2 = .error .StaleOrReplayedMessage := by
  have henv : env = mkEnvelope (msgKeyAt cab i) ⟨pa, i, 0⟩ m :=
    hinv.absent i (m, env) hget
  obtain ⟨hlt, hnone⟩ := hinv.bgot i hgot
  have hmiss : takeSkipped w.sB.skipped pa i = none :=
    takeSkipped_eq_none (fun e he hc => hnone e he hc.2)
  rw [henv, ratchetDecrypt_stale pa cab i m hinv.bremote hmiss hlt]

theorem ratchetDecrypt_error_fst {s : RatchetState} {e : Envelope} {err : SmlError}
    (h : (ratchetDecrypt s e).2 = .error err) : (ratchetDecrypt s e).1 = s := by
  unfold ratchetDecrypt at h ⊢
  dsimp only at h ⊢
  cases htake : takeSkipped s.skipped e.header.ratchetPub e.header.counter with
  | some q =>
      obtain ⟨mk, store2⟩ := q
      rw [htake] at h
      dsimp only at h ⊢
      cases hdec : aeadDecrypt mk (encodeHeader e.header) e.ciphertext e.tag with
      | some m =>
          rw [hdec] at h
          exact absurd h (by simp)
      | none => rfl
  | none =>
      rw [htake] at h
      dsimp only at h ⊢
      by_cases hpub : e.header.ratchetPub = s.remoteRatchetPub
      · rw [if_pos hpub] at h ⊢
        by_cases hctr : e.header.counter < s.recvCount
        · rw [if_pos hctr] at h ⊢
        · rw [if_neg hctr] at h ⊢
          cases hdec : aeadDecrypt
              (kdfMsgKey (skipSteps e.header.ratchetPub s.recvChainKey s.recvCount
                (e.header.counter - s.recvCount) s.skipped).2)
              (encodeHeader e.header) e.ciphertext e.tag with
          | some m =>
              rw [hdec] at h
              exact absurd h (by simp)
          | none => rfl
      · rw [if_neg hpub] at h ⊢
        cases hdec : aeadDecrypt
            (kdfMsgKey (skipSteps e.header.ratchetPub
              (kdfRootStep s.rootKey (dhShared s.localRatchetPriv e.header.ratchetPub)).2 0
              e.header.counter
              (skipSteps s.remoteRatchetPub s.recvChainKey s.recvCount
                (e.header.prevChainLen - s.recvCount) s.skipped).1).2)
            (encodeHeader e.header) e.ciphertext e.tag with
        | some m =>
            rw [hdec] at h
            exact absurd h (by simp)
        | none => rfl

theorem lookupOtp_none_of_not_mem {l : List (Nat × Nat)} {i : Nat}
    (h : i ∉ l.map Prod.fst) : lookupOtp l i = none := by
  induction l with
  | nil => rfl
  | cons p tail ih =>
      unfold lookupOtp
      rw [List.map_cons, List.mem_cons] at h
      push_neg at h
      rw [if_neg (fun hc => h.1 hc.symm), ih h.2]

theorem consumeOtp_none_of_lookup_none {l : List (Nat × Nat)} {i : Nat}
    (h : lookupOtp l i = none) : consumeOtp l i = none := by
  induction l with
  | nil => rfl
  | cons p tail ih =>
      unfold consumeOtp
      unfold lookupOtp at h
      by_cases hc : p.1 = i
      · rw [if_pos hc] at h
        exact absurd h (by simp)
      · rw [if_neg hc] at h ⊢
        rw [ih h]

theorem consumeOtp_lookup_none {l : List (Nat × Nat)} {i : Nat}
    (hnodup : (l.map Prod.fst).Nodup) {k : Nat} {rest : List (Nat × Nat)}
    (h : consumeOtp l i = some (k, rest)) : lookupOtp rest i = none := by
  induction l generalizing rest with
  | nil => simp [consumeOtp] at h
  | cons p tail ih =>
      rw [List.map_cons, List.nodup_cons] at hnodup
      unfold consumeOtp at h
      by_cases hc : p.1 = i
      · rw [if_pos hc] at h
        simp only [Option.some.injEq, Prod.mk.injEq] at h
        obtain ⟨_, hr⟩ := h
        rw [← hr]
        apply lookupOtp_none_of_not_mem
        rw [← hc]
        exact hnodup.1
      · rw [if_neg hc] at h
        cases hrec : consumeOtp tail i with
        | none => rw [hrec] at h; exact absurd h (by simp)
        | some q =>
            obtain ⟨k2, rest2⟩ := q
            rw [hrec] at h
            simp only [Option.some.injEq, Prod.mk.injEq] at h
            obtain ⟨hk, hr⟩ := h
            subst hk
            rw [← hr]
            unfold lookupOtp
            rw [if_neg hc]
            exact ih hnodup.2 hrec

/-- C2: for all valid initiator and responder key pairs (an honestly signed
responder bundle, with or without a one-time prekey), running the X3DH
agreement on the initiator side and on the responder side yields the
identical initial root key and the identical initial chain key
(session symmetry). -/
theorem x3dh_session_symmetry (idA ephA idB spkB otpB : Nat) (useOtp : Bool) (pid : Nat) :
    x3dhInitiator idA ephA (honestBundle idB spkB otpB useOtp pid) =
      .ok (x3dhResponder idB spkB (if useOtp then some otpB else none)
            (dhPub idA) (dhPub ephA)) := by
  have hver : verifyPK (honestBundle idB spkB otpB useOtp pid).identityKey
      (honestBundle idB spkB otpB useOtp pid).signedPrekey
      (honestBundle idB spkB otpB useOtp pid).signedPrekeySignature = true := by
    simp [honestBundle, verifyPK, signPK, dhPub]
  simp only [x3dhInitiator, hver, if_true]
  cases useOtp with
  | false =>
      simp only [honestBundle, x3dhResponder]
      rw [dhShared_comm idA spkB, dhShared_comm ephA idB, dhShared_comm ephA spkB]
      simp
  | true =>
      simp only [honestBundle, x3dhResponder]
      rw [dhShared_comm idA spkB, dhShared_comm ephA idB, dhShared_comm ephA spkB,
        dhShared_comm ephA otpB]
      simp

/-- C1: in every reachable configuration of two linked pairwise sessions
(reachable by any interleaved sequence of encrypt/decrypt calls, in either
direction, with arbitrary delivery order and replays), encrypting any
plaintext `m` on one session and immediately decrypting the produced
envelope on the peer session returns exactly `m` — decrypt is a left
inverse of encrypt, in both directions. -/
theorem pairwise_roundtrip_of_reach (w : World) (hw : Reach w) (m : List Nat) :
    (ratchetDecrypt w.sB (ratchetEncrypt w.sA m).2).2 = .ok m ∧
    (ratchetDecrypt w.sA (ratchetEncrypt w.sB m).2).2 = .ok m := by
  rcases reach_inv hw with ⟨pa, pb, cab, cba, hinv⟩
  exact ⟨roundtripAB hinv m, roundtripAB (linkInv_swap hinv) m⟩

/-- Witness for C1 at the freshly established pair and plaintext `[7]`. -/
theorem pairwise_roundtrip_of_reach_witness :
    Reach (initWorld 0) ∧
    (ratchetDecrypt (initWorld 0).sB (ratchetEncrypt (initWorld 0).sA [7]).2).2 = .ok [7] ∧
    (ratchetDecrypt (initWorld 0).sA (ratchetEncrypt (initWorld 0).sB [7]).2).2 = .ok [7] :=
  ⟨⟨0, [], rfl⟩, pairwise_roundtrip_of_reach (initWorld 0) ⟨0, [], rfl⟩ [7]⟩

/-- C3: in every reachable configuration, an envelope that was already
decrypted successfully once (its index is recorded as delivered) is rejected
when submitted again to the same session's decrypt, with
`StaleOrReplayedMessage` or `AuthenticationFailed` — in both directions. -/
theorem replay_rejected (w : World) (hw : Reach w) :
    (∀ i m env, w.sentAB.get? i = some (m, env) → i ∈ w.gotB →
      (ratchetDecrypt w.sB env).2 = .error .StaleOrReplayedMessage ∨
      (ratchetDecrypt w.sB env).2 = .error .AuthenticationFailed) ∧
    (∀ i m env, w.sentBA.get? i = some (m, env) → i ∈ w.gotA →
      (ratchetDecrypt w.sA env).2 = .error .StaleOrReplayedMessage ∨
      (ratchetDecrypt w.sA env).2 = .error .AuthenticationFailed) := by
  rcases reach_inv hw with ⟨pa, pb, cab, cba, hinv⟩
  constructor
  · intro i m env hget hgot
    exact Or.inl (replayAB hinv i m env hget hgot)
  · intro i m env hget hgot
    exact Or.inl (replayAB (linkInv_swap hinv) i m env hget hgot)

/-- Witness for C3: after sending `[5]` and delivering it once, resubmitting
the same envelope is rejected. -/
theorem replay_rejected_witness :
    Reach (runCmds [Cmd.sendA [5], Cmd.deliverToB 0] (initWorld 0)) ∧
    ((ratchetDecrypt (runCmds [Cmd.sendA [5], Cmd.deliverToB 0] (initWorld 0)).sB
        (ratchetEncrypt (initWorld 0).sA [5]).2).2 = .error .StaleOrReplayedMessage ∨
     (ratchetDecrypt (runCmds [Cmd.sendA [5], Cmd.deliverToB 0] (initWorld 0)).sB
        (ratchetEncrypt (initWorld 0).sA [5]).2).2 = .error .AuthenticationFailed) :=
  ⟨⟨0, [Cmd.sendA [5], Cmd.deliverToB 0], rfl⟩,
   (replay_rejected (runCmds [Cmd.sendA [5], Cmd.deliverToB 0] (initWorld 0))
      ⟨0, [Cmd.sendA [5], Cmd.deliverToB 0], rfl⟩).1 0 [5]
      (ratchetEncrypt (initWorld 0).sA [5]).2 (by rfl) (by decide)⟩

/-- C4: when decrypt fails with an AEAD tag mismatch (`AuthenticationFailed`)
it returns a typed failure, and the session's persisted state — root key,
chain keys, counters, and the skipped-key store — is left unchanged; at the
C level `pairwise_decrypt` returns the negative error code and writes no
output. -/
theorem auth_failure_preserves_state (s : RatchetState) (e : Envelope)
    (bytes : List Nat) (cap : Nat)
    (herr : (ratchetDecrypt s e).2 = .error .AuthenticationFailed)
    (hparse : parseEnvelope bytes = some e) :
    (ratchetDecrypt s e).1.rootKey = s.rootKey ∧
    (ratchetDecrypt s e).1.sendChainKey = s.sendChainKey ∧
    (ratchetDecrypt s e).1.recvChainKey = s.recvChainKey ∧
    (ratchetDecrypt s e).1.sendCount = s.sendCount ∧
    (ratchetDecrypt s e).1.recvCount = s.recvCount ∧
    (ratchetDecrypt s e).1.skipped = s.skipped ∧
    pairwise_decrypt s bytes cap = ⟨errCode .AuthenticationFailed, [], 0, s⟩ := by
  have hfst := ratchetDecrypt_error_fst herr
  refine ⟨by rw [hfst], by rw [hfst], by rw [hfst], by rw [hfst], by rw [hfst],
    by rw [hfst], ?_⟩
  unfold pairwise_decrypt
  rw [hparse]
  dsimp only
  rw [herr]

/-- Witness for C4 at a concrete session and tampered envelope. -/
theorem auth_failure_preserves_state_witness :
    (ratchetDecrypt zeroSession badTagEnvelope).2 = .error .AuthenticationFailed ∧
    ((ratchetDecrypt zeroSession badTagEnvelope).1.rootKey = zeroSession.rootKey ∧
     (ratchetDecrypt zeroSession badTagEnvelope).1.sendChainKey = zeroSession.sendChainKey ∧
     (ratchetDecrypt zeroSession badTagEnvelope).1.recvChainKey = zeroSession.recvChainKey ∧
     (ratchetDecrypt zeroSession badTagEnvelope).1.sendCount = zeroSession.sendCount ∧
     (ratchetDecrypt zeroSession badTagEnvelope).1.recvCount = zeroSession.recvCount ∧
     (ratchetDecrypt zeroSession badTagEnvelope).1.skipped = zeroSession.skipped ∧
     pairwise_decrypt zeroSession (serializeEnvelope badTagEnvelope) 16 =
       ⟨errCode .AuthenticationFailed, [], 0, zeroSession⟩) :=
  ⟨by rfl, auth_failure_preserves_state zeroSession badTagEnvelope
    (serializeEnvelope badTagEnvelope) 16 (by rfl) (by rfl)⟩

/-- C5: with messages `[1]`..`[5]` encrypted in order on the initiator
session, the peer decrypts them in the order 3, 1, 5, 2, 4 (envelope indices
2, 0, 4, 1, 3), every decrypt succeeds with the original plaintext (the
out-of-order ones through the Skipped-Key Store), and a sixth decrypt
reusing the envelope of message 3 fails. -/
theorem out_of_order_scenario :
    deliverResult c5Start 2 = .ok [3] ∧
    deliverResult (deliverStep c5Start 2) 0 = .ok [1] ∧
    deliverResult (deliverStep (deliverStep c5Start 2) 0) 4 = .ok [5] ∧
    deliverResult (deliverStep (deliverStep (deliverStep c5Start 2) 0) 4) 1 = .ok [2] ∧
    deliverResult (deliverStep (deliverStep (deliverStep (deliverStep c5Start 2) 0) 4) 1) 3
      = .ok [4] ∧
    deliverResult
      (deliverStep (deliverStep (deliverStep (deliverStep (deliverStep c5Start 2) 0) 4) 1) 3) 2
      = .error .StaleOrReplayedMessage :=
  ⟨rfl, rfl, rfl, rfl, rfl, rfl⟩

/-- C6: a one-time prekey is consumed exactly once — the first successful
X3DH agreement referencing its id consumes and erases it, after which no
one-time prekey private key for that id exists in the pool, and any
subsequent agreement attempt referencing the same id returns
`PrekeyNotFound`. -/
theorem one_time_prekey_consumed_once (st st2 : PrekeyStore) (i a e a2 e2 rk ck : Nat)
    (hnodup : (st.oneTimePrekeys.map Prod.fst).Nodup)
    (hacc : x3dhAccept st (some i) a e = (st2, .ok (rk, ck))) :
    lookupOtp st2.oneTimePrekeys i = none ∧
    x3dhAccept st2 (some i) a2 e2 = (st2, .error .PrekeyNotFound) := by
  unfold x3dhAccept consume_one_time_prekey at hacc
  dsimp only at hacc
  cases hcon : consumeOtp st.oneTimePrekeys i with
  | none =>
      rw [hcon] at hacc
      dsimp only at hacc
      simp at hacc
  | some q =>
      obtain ⟨k, rest⟩ := q
      rw [hcon] at hacc
      dsimp only at hacc
      have hst2 : st2 = { st with oneTimePrekeys := rest } := by
        have hfst := congrArg Prod.fst hacc
        exact hfst.symm
      subst hst2
      have hlook : lookupOtp rest i = none := consumeOtp_lookup_none hnodup hcon
      refine ⟨hlook, ?_⟩
      unfold x3dhAccept consume_one_time_prekey
      dsimp only
      rw [consumeOtp_none_of_lookup_none hlook]

/-- Witness for C6 at a concrete prekey pool with a single one-time
prekey. -/
theorem one_time_prekey_consumed_once_witness :
    ((⟨1, 2, [(5, 7)]⟩ : PrekeyStore).oneTimePrekeys.map Prod.fst).Nodup ∧
    x3dhAccept ⟨1, 2, [(5, 7)]⟩ (some 5) 3 4 =
      (⟨1, 2, []⟩, .ok (x3dhResponder 1 2 (some 7) 3 4)) ∧
    (lookupOtp (⟨1, 2, []⟩ : PrekeyStore).oneTimePrekeys 5 = none ∧
     x3dhAccept ⟨1, 2, []⟩ (some 5) 8 9 = (⟨1, 2, []⟩, .error .PrekeyNotFound)) :=
  ⟨by decide, by rfl,
   one_time_prekey_consumed_once ⟨1, 2, [(5, 7)]⟩ ⟨1, 2, []⟩ 5 3 4 8 9
     (x3dhResponder 1 2 (some 7) 3 4).1 (x3dhResponder 1 2 (some 7) 3 4).2
     (by decide) (by rfl)⟩

/-- C7 counterexample: the header `src/include/sml/sml.h` declares none of
the five group operations named by the claim — the declared function surface
contains no `create_group`, `add_member`, `remove_member`, `group_encrypt`
or `group_decrypt`. -/
theorem group_ops_not_declared :
    "create_group" ∉ sml_declared_functions.map CFunDecl.name ∧
    "add_member" ∉ sml_declared_functions.map CFunDecl.name ∧
    "remove_member" ∉ sml_declared_functions.map CFunDecl.name ∧
    "group_encrypt" ∉ sml_declared_functions.map CFunDecl.name ∧
    "group_decrypt" ∉ sml_declared_functions.map CFunDecl.name := by
  decide

/-- C7 amended: the header declares the opaque group handle type
`group_session`, but no group operation at all — the declared function
surface consists exactly of the five pairwise operations. -/
theorem group_handle_declared_without_ops :
    "group_session" ∈ sml_declared_types ∧
    sml_declared_functions.map CFunDecl.name =
      ["pairwise_init_session", "pairwise_destroy_session", "x3dh_get_own_prekey_bundle",
       "pairwise_encrypt", "pairwise_decrypt"] ∧
    group_operation_names.all
      (fun g => !((sml_declared_functions.map CFunDecl.name).contains g)) = true := by
  decide

/-- C8 counterexample: the presence flag `has_one_time_prekey` of the
`prekey_bundle` struct is declared with C type `int`, which is not a
one-byte field (a one-byte field would be `byteArray 1`; `int` is at least
two bytes on every conforming platform). -/
theorem presence_flag_not_one_byte :
    bundleFieldType "has_one_time_prekey" = some CFieldType.cInt ∧
    CFieldType.cInt ≠ CFieldType.byteArray 1 ∧
    fieldSize 2 CFieldType.cInt ≠ 1 ∧
    fieldSize 4 CFieldType.cInt ≠ 1 ∧
    fieldSize 8 CFieldType.cInt ≠ 1 := by
  decide

/-- C8 amended: the `prekey_bundle` layout consists of the four fixed-size
public key / signature byte-array fields (32, 32, 64 and 32 bytes), an
`int`-typed presence flag (not a one-byte field), and a 32-bit prekey id. -/
theorem prekey_bundle_layout :
    prekey_bundle_fields.map Prod.fst =
      ["identity_key", "signed_prekey", "signed_prekey_signature", "one_time_prekey",
       "has_one_time_prekey", "prekey_id"] ∧
    bundleFieldType "identity_key" = some (CFieldType.byteArray 32) ∧
    bundleFieldType "signed_prekey" = some (CFieldType.byteArray 32) ∧
    bundleFieldType "signed_prekey_signature" = some (CFieldType.byteArray 64) ∧
    bundleFieldType "one_time_prekey" = some (CFieldType.byteArray 32) ∧
    bundleFieldType "has_one_time_prekey" = some CFieldType.cInt ∧
    bundleFieldType "prekey_id" = some CFieldType.uint32 ∧
    fieldSize 4 CFieldType.uint32 = 4 := by
  decide

/-- C9: for every output buffer whose caller-declared capacity is too small,
`pairwise_encrypt` and `pairwise_decrypt` fail with `BufferTooSmall`, report
the required length through the in/out length parameter, write nothing into
the output buffer, and leave the session untouched. -/
theorem buffer_too_small_no_partial_writes (s t : RatchetState)
    (data bytes m : List Nat) (capE capD : Nat) (env : Envelope)
    (hE : capE < (serializeEnvelope (ratchetEncrypt s data).2).length)
    (hparse : parseEnvelope bytes = some env)
    (hok : (ratchetDecrypt t env).2 = .ok m)
    (hD : capD < m.length) :
    pairwise_encrypt s data capE =
      ⟨errCode .BufferTooSmall, [],
       (serializeEnvelope (ratchetEncrypt s data).2).length, s⟩ ∧
    pairwise_decrypt t bytes capD = ⟨errCode .BufferTooSmall, [], m.length, t⟩ := by
  constructor
  · unfold pairwise_encrypt
    dsimp only
    rw [if_pos hE]
  · unfold pairwise_decrypt
    rw [hparse]
    dsimp only
    rw [hok]
    dsimp only
    rw [if_pos hD]

/-- Witness for C9 at concrete sessions, plaintexts and zero capacity. -/
theorem buffer_too_small_no_partial_writes_witness :
    0 < (serializeEnvelope (ratchetEncrypt zeroSession [1]).2).length ∧
    parseEnvelope (serializeEnvelope (ratchetEncrypt zeroSession [9]).2) =
      some (ratchetEncrypt zeroSession [9]).2 ∧
    (ratchetDecrypt zeroSession (ratchetEncrypt zeroSession [9]).2).2 = .ok [9] ∧
    (pairwise_encrypt zeroSession [1] 0 =
      ⟨errCode .BufferTooSmall, [],
       (serializeEnvelope (ratchetEncrypt zeroSession [1]).2).length, zeroSession⟩ ∧
     pairwise_decrypt zeroSession (serializeEnvelope (ratchetEncrypt zeroSession [9]).2) 0 =
       ⟨errCode .BufferTooSmall, [], 1, zeroSession⟩) :=
  ⟨by decide, by rfl, by rfl,
   buffer_too_small_no_partial_writes zeroSession zeroSession [1]
     (serializeEnvelope (ratchetEncrypt zeroSession [9]).2) [9] 0 0
     (ratchetEncrypt zeroSession [9]).2 (by decide) (by rfl) (by rfl) (by decide)⟩

theorem errCode_neg (e : SmlError) : errCode e < 0 := by
  cases e <;> decide

/-- C10: every function declared by the header returns `int`, delivers its
results (session handle, bundle, output bytes and lengths) through the
declared out-parameters, and in the modelled semantics every operation's
return code is 0 exactly on success and strictly negative on failure. -/
theorem api_return_code_convention :
    sml_declared_functions.all (fun d => d.returnsInt) = true ∧
    sml_declared_functions.map CFunDecl.name =
      ["pairwise_init_session", "pairwise_destroy_session", "x3dh_get_own_prekey_bundle",
       "pairwise_encrypt", "pairwise_decrypt"] ∧
    sml_declared_functions.map CFunDecl.outParams =
      [["session"], [], ["own_prekey_bundle"], ["encrypted_data", "encrypted_data_len"],
       ["decrypted_data", "decrypted_data_len"]] ∧
    (∀ err : SmlError, errCode err < 0) ∧
    (∀ ownId ephPriv seed bundle theirPub,
      (pairwise_init_session ownId ephPriv seed bundle theirPub).1 = 0 ∨
      (pairwise_init_session ownId ephPriv seed bundle theirPub).1 < 0) ∧
    (∀ ownId ephPriv seed bundle theirPub,
      ((pairwise_init_session ownId ephPriv seed bundle theirPub).1 = 0 ↔
        (pairwise_init_session ownId ephPriv seed bundle theirPub).2.isSome = true)) ∧
    (∀ so, (pairwise_destroy_session so).1 = 0 ∨ (pairwise_destroy_session so).1 < 0) ∧
    (∀ st, (x3dh_get_own_prekey_bundle st).1 = 0) ∧
    (∀ s d c, (pairwise_encrypt s d c).ret = 0 ∨ (pairwise_encrypt s d c).ret < 0) ∧
    (∀ s b c, (pairwise_decrypt s b c).ret = 0 ∨ (pairwise_decrypt s b c).ret < 0) := by
  refine ⟨by decide, by decide, by decide, errCode_neg, ?_, ?_, ?_, ?_, ?_, ?_⟩
  · intro ownId ephPriv seed bundle theirPub
    unfold pairwise_init_session
    by_cases hlen : theirPub.length = 32
    · rw [if_pos hlen]
      cases hx : x3dhInitiator ownId ephPriv bundle with
      | ok rc => exact Or.inl rfl
      | error err => exact Or.inr (errCode_neg err)
    · rw [if_neg hlen]
      exact Or.inr (errCode_neg .InvalidInput)
  · intro ownId ephPriv seed bundle theirPub
    unfold pairwise_init_session
    by_cases hlen : theirPub.length = 32
    · rw [if_pos hlen]
      cases hx : x3dhInitiator ownId ephPriv bundle with
      | ok rc => simp
      | error err =>
          have hne := errCode_neg err
          dsimp only
          constructor
          · intro h0
            omega
          · intro hfalse
            simp at hfalse
    · rw [if_neg hlen]
      have hne := errCode_neg SmlError.InvalidInput
      dsimp only
      constructor
      · intro h0
        omega
      · intro hfalse
        simp at hfalse
  · intro so
    cases so with
    | none => exact Or.inr (errCode_neg .InvalidInput)
    | some s => exact Or.inl rfl
  · intro st
    unfold x3dh_get_own_prekey_bundle
    cases st.oneTimePrekeys <;> rfl
  · intro s d c
    unfold pairwise_encrypt
    dsimp only
    by_cases hcap : c < (serializeEnvelope (ratchetEncrypt s d).2).length
    · rw [if_pos hcap]
      exact Or.inr (errCode_neg .BufferTooSmall)
    · rw [if_neg hcap]
      exact Or.inl rfl
  · intro s b c
    unfold pairwise_decrypt
    cases hp : parseEnvelope b with
    | none => exact Or.inr (errCode_neg .InvalidInput)
    | some env =>
        dsimp only
        cases hr : (ratchetDecrypt s env).2 with
        | ok m =>
            dsimp only
            by_cases hcap : c < m.length
            · rw [if_pos hcap]
              exact Or.inr (errCode_neg .BufferTooSmall)
            · rw [if_neg hcap]
              exact Or.inl rfl
        | error err => exact Or.inr (errCode_neg err)

end SML
